import Mathlib

/-!
Shallow embedding of the PeerLinks channel core (heapwolf/peerlinks).

The JavaScript sources embedded here are:
  - lib/protocol/channel.js  (Channel: receive, post, bulk, receiveBulk,
    encrypt/decrypt, computeHeight, adjustTimestamp, computeMaxTimestamp,
    filterParents, jsonLimit/checkJSONLimit, getLeaves)
  - lib/protocol/message.js  (Message: verify, body, chain access)
  - lib/protocol/chain.js    (Chain.getLeafKey)
  - lib/protocol/link.js     (Link.verify, Link.isValid)
  - lib/storage/memory.js    (Memory storage: addMessage, getMessage,
    getMessages, hasMessage, getLeaves, getMessageCount)
  - lib/sync-agent.js        (SyncAgent.synchronize state machine)

Modelling conventions:
  - Byte strings are lists of naturals (`Bytes`).  JavaScript Buffers are
    compared byte-wise, which agrees with equality of these lists.
  - Timestamps are integers (seconds).  The source uses floating point
    seconds; every operation the claims touch (comparison, max, adding or
    subtracting constants) is order-preserving, so integer seconds are a
    faithful discretization.
  - Ed25519 signatures are modelled symbolically (EUF-CMA idealization): a
    signature is a record of the signer public key and the signed data, and
    crypto_sign_verify_detached succeeds exactly when both match.
  - BLAKE2b content addresses: `Channel.receive` and the storage treat the
    message hash purely as an identifier computed injectively from the
    serialized message (collision resistance idealized), so the hash is a
    field of the message record.
  - The XSalsa20-Poly1305 secretbox is modelled with an abstract keystream
    (XOR stream cipher) and an abstract 16-byte tag recomputed on open,
    matching the byte-length arithmetic of the source exactly.
  - Asynchronous methods run sequentially in the model (the source awaits
    each storage operation; channel acceptance is serialized per channel).
  - The StorageCache in front of the backend is semantics-preserving and is
    modelled as the transparent backend itself.
-/

namespace PeerLinks

abbrev Bytes := List Nat

/-- HASH_SIZE from message.js. -/
def HASH_SIZE : Nat := 32

/-- MAX_PARENT_DELTA from channel.js: 30 days in seconds. -/
def MAX_PARENT_DELTA : Int := 30 * 24 * 3600

/-- MAX_BULK_COUNT from channel.js. -/
def MAX_BULK_COUNT : Nat := 128

/-- MAX_LEAVES_COUNT from channel.js. -/
def MAX_LEAVES_COUNT : Nat := 128

/-- FUTURE from channel.js: 2 minutes in seconds. -/
def FUTURE : Int := 2 * 60

/-- crypto_secretbox_MACBYTES (libsodium). -/
def crypto_secretbox_MACBYTES : Nat := 16

/-- crypto_secretbox_NONCEBYTES (libsodium). -/
def crypto_secretbox_NONCEBYTES : Nat := 24

/-- Message body: either the root body or a JSON string (message.js,
`Message.root()` and `Message.json()`; the wire schema `Body` oneof). -/
inductive Body where
  | root : Body
  | json : String → Body
deriving DecidableEq, Repr

/-- To-be-signed record of a link (link.js `Link.tbs`): trustee public key,
display name, validity window and the channel id injected before
sign/verify. -/
structure LinkTBS where
  trusteePubKey : Bytes
  trusteeDisplayName : String
  validFrom : Int
  validTo : Int
  channelId : Bytes
deriving DecidableEq, Repr

/-- Symbolic Ed25519 signature over a link TBS: records the signer public
key and signed data; verification compares both. -/
structure LinkSig where
  signer : Bytes
  tbs : LinkTBS
deriving DecidableEq, Repr

/-- One delegation link (link.js). -/
structure Link where
  trusteePubKey : Bytes
  trusteeDisplayName : String
  validFrom : Int
  validTo : Int
  signature : LinkSig
deriving DecidableEq, Repr

/-- To-be-signed record of a channel message (message.js `Message.tbs`):
chain, timestamp, body, parents, height. -/
structure MsgTBS where
  chain : List Link
  timestamp : Int
  body : Body
  parents : List Bytes
  height : Nat
deriving DecidableEq, Repr

/-- Symbolic Ed25519 signature over a message TBS. -/
structure MsgSig where
  signer : Bytes
  tbs : MsgTBS
deriving DecidableEq, Repr

/-- crypto_sign_verify_detached for link signatures, symbolic model: the
signature is valid for exactly the data it was produced over and the key
that produced it. -/
def linkSigVerify (sig : LinkSig) (tbs : LinkTBS) (publicKey : Bytes) : Bool :=
  sig.signer == publicKey && sig.tbs == tbs

/-- crypto_sign_verify_detached for message signatures, symbolic model. -/
def msgSigVerify (sig : MsgSig) (tbs : MsgTBS) (publicKey : Bytes) : Bool :=
  sig.signer == publicKey && sig.tbs == tbs

/-- A channel message in decrypted form (message.js).  `hash` is the BLAKE2b
content address of the serialized encrypted message, treated as an opaque
identifier (see the collision-resistance convention above). -/
structure Msg where
  hash : Bytes
  parents : List Bytes
  height : Nat
  timestamp : Int
  chain : List Link
  body : Body
  signature : MsgSig
deriving DecidableEq, Repr

/-- The public data of a channel needed by verification (channel.js):
`publicKey` is the Ed25519 root key, `id` the derived channel id. -/
structure ChanPub where
  publicKey : Bytes
  id : Bytes
deriving DecidableEq, Repr

/-- Link.isValid (link.js): the timestamp is within the validity window. -/
def linkIsValid (l : Link) (timestamp : Int) : Bool :=
  l.validFrom ≤ timestamp && timestamp < l.validTo

/-- Link.verify (link.js): window check plus signature check over the TBS
with the channel id injected. -/
def linkVerify (ch : ChanPub) (l : Link) (publicKey : Bytes)
    (timestamp : Int) : Bool :=
  linkIsValid l timestamp &&
    linkSigVerify l.signature
      ⟨l.trusteePubKey, l.trusteeDisplayName, l.validFrom, l.validTo, ch.id⟩
      publicKey

/-- The walk of Chain.getLeafKey (chain.js): start from the channel public
key; each link must verify against the current key and replaces it by its
trustee key.  The source returns `false` on failure, modelled as `none`. -/
def chainWalk (ch : ChanPub) (key : Bytes) (links : List Link)
    (timestamp : Int) : Option Bytes :=
  match links with
  | [] => some key
  | l :: rest =>
    if linkVerify ch l key timestamp then
      chainWalk ch l.trusteePubKey rest timestamp
    else
      none

/-- Chain.getLeafKey (chain.js). -/
def getLeafKey (ch : ChanPub) (links : List Link) (timestamp : Int) :
    Option Bytes :=
  chainWalk ch ch.publicKey links timestamp

/-- Message.tbs of a message record (message.js). -/
def msgTbs (m : Msg) : MsgTBS :=
  ⟨m.chain, m.timestamp, m.body, m.parents, m.height⟩

/-- Message.verify (message.js): walk the chain to the leaf key, then
verify the detached signature over the TBS.  A failed chain walk yields a
non-key value in the source, failing verification. -/
def msgVerify (ch : ChanPub) (m : Msg) (timestamp : Int) : Bool :=
  match getLeafKey ch m.chain timestamp with
  | none => false
  | some leafKey => msgSigVerify m.signature (msgTbs m) leafKey

/-- Channel.jsonLimit (channel.js): `none` models the Infinity returned at
chain length 0; lengths above 3 are an error. -/
def jsonLimit (chainLength : Nat) : Except String (Option Nat) :=
  match chainLength with
  | 0 => .ok none
  | 1 => .ok (some 2097152)
  | 2 => .ok (some 524288)
  | 3 => .ok (some 8192)
  | _ => .error "Unexpected chain length"

/-- Channel.checkJSONLimit (channel.js). -/
def checkJSONLimit (json : String) (chainLength : Nat) :
    Except String Unit :=
  match jsonLimit chainLength with
  | .error e => .error e
  | .ok none => .ok ()
  | .ok (some limit) =>
    if json.length > limit then
      .error "Message body length overflow"
    else
      .ok ()

/-- Channel.computeHeight (channel.js). -/
def computeHeight (parents : List Msg) : Nat :=
  parents.foldl (fun acc p => max acc (p.height + 1)) 0

/-- Channel.adjustTimestamp (channel.js). -/
def adjustTimestamp (parents : List Msg) (timestamp : Int) : Int :=
  parents.foldl (fun acc p => max acc p.timestamp) timestamp

/-- Channel.computeMaxTimestamp (channel.js). -/
def computeMaxTimestamp (parents : List Msg) : Int :=
  parents.foldl (fun acc p => max acc p.timestamp) 0

/-- Channel.filterParents (channel.js): keep parents whose timestamp is at
most MAX_PARENT_DELTA behind the newest parent. -/
def filterParents (parents : List Msg) : List Msg :=
  let mx := computeMaxTimestamp parents
  parents.filter (fun p => decide (p.timestamp ≥ mx - MAX_PARENT_DELTA))

/-- Per-channel storage state of the in-memory backend (memory.js
`getChannelData`): the CRDT-ordered message list, the hash index, and the
leaf set (a JavaScript Set: insertion-ordered, duplicate-free). -/
structure ChannelData where
  messages : List Msg
  byHash : List (Bytes × Msg)
  leaves : List Bytes
deriving DecidableEq, Repr

/-- The empty channel data (memory.js `getChannelData` default). -/
def emptyChannelData : ChannelData := ⟨[], [], []⟩

/-- The CRDT comparator of memory.js `addMessage` sort: height ascending,
then Buffer.compare on hashes (lexicographic byte order). -/
def bytesLE (a b : Bytes) : Bool :=
  match a, b with
  | [], _ => true
  | _ :: _, [] => false
  | x :: xs, y :: ys =>
    if x < y then true
    else if y < x then false
    else bytesLE xs ys

/-- CRDT order on messages: `(height ASC, hash ASC)`. -/
def crdtLE (a b : Msg) : Bool :=
  if a.height < b.height then true
  else if b.height < a.height then false
  else bytesLE a.hash b.hash

/-- Insertion step of the CRDT sort. -/
def insertCRDT (m : Msg) : List Msg → List Msg
  | [] => [m]
  | x :: xs => if crdtLE m x then m :: x :: xs else x :: insertCRDT m xs

/-- The re-sort performed by memory.js `addMessage` after pushing. -/
def sortCRDT : List Msg → List Msg
  | [] => []
  | x :: xs => insertCRDT x (sortCRDT xs)

/-- Memory.hasMessage (memory.js). -/
def hasMessage (d : ChannelData) (hash : Bytes) : Bool :=
  d.byHash.any (fun p => p.1 == hash)

/-- Memory.getMessage (memory.js). -/
def getMessage (d : ChannelData) (hash : Bytes) : Option Msg :=
  (d.byHash.find? (fun p => p.1 == hash)).map (fun p => p.2)

/-- Memory.getMessages (memory.js): order-preserving lookups. -/
def getMessages (d : ChannelData) (hashes : List Bytes) : List (Option Msg) :=
  hashes.map (getMessage d)

/-- JavaScript `Set.delete` of every parent followed by `Set.add` of the
new hash, on the insertion-ordered duplicate-free leaves list. -/
def updateLeaves (leaves : List Bytes) (parents : List Bytes)
    (hash : Bytes) : List Bytes :=
  let pruned := leaves.filter (fun h => decide (h ∉ parents))
  if hash ∈ pruned then pruned else pruned ++ [hash]

/-- Memory.addMessage (memory.js): duplicate hashes are a no-op; otherwise
push and re-sort the CRDT list, index by hash, drop the parents from the
leaf set and add the new hash. -/
def addMessage (d : ChannelData) (m : Msg) : ChannelData :=
  if hasMessage d m.hash then d
  else
    { messages := sortCRDT (d.messages ++ [m])
      byHash := (m.hash, m) :: d.byHash
      leaves := updateLeaves d.leaves m.parents m.hash }

/-- Memory.getLeaves (memory.js): resolve every leaf hash.  Under the
storage invariant every leaf hash resolves; the model drops unresolvable
hashes. -/
def memGetLeaves (d : ChannelData) : List Msg :=
  d.leaves.filterMap (getMessage d)

/-- Channel.getLeaves (channel.js): backend leaves clamped to
MAX_LEAVES_COUNT. -/
def channelLeaves (d : ChannelData) : List Msg :=
  (memGetLeaves d).take MAX_LEAVES_COUNT

/-- Collect a list of optional parents, failing on the first missing one
(the `findIndex` check of Channel.receive). -/
def allSome : List (Option Msg) → Option (List Msg)
  | [] => some []
  | none :: _ => none
  | some m :: rest => (allSome rest).map (fun ms => m :: ms)

/-- Channel.receive (channel.js).  Returns the JS return/throw outcome and
the resulting storage; every thrown branch leaves the storage unchanged
because `cache.addMessage` is the final step of the source.  `timeNow` is
the value of `now()` during the call. -/
def receive (ch : ChanPub) (d : ChannelData) (m : Msg) (timeNow : Int) :
    Except String Bool × ChannelData :=
  if hasMessage d m.hash then
    (Except.ok false, d)
  else if !msgVerify ch m timeNow then
    (Except.error "Invalid message signature, or invalid chain", d)
  else if m.parents.length > MAX_LEAVES_COUNT then
    (Except.error "Invalid parent count", d)
  else
    match allSome (getMessages d m.parents) with
    | none => (Except.error "Message parent not found", d)
    | some parents =>
      if (filterParents parents).length ≠ parents.length then
        (Except.error "Parent timestamp delta is greater than 30 days", d)
      else if m.height ≠ computeHeight parents then
        (Except.error "Invalid received message height", d)
      else if m.timestamp > timeNow + FUTURE then
        (Except.error "Received message is in the future", d)
      else if m.timestamp < computeMaxTimestamp parents then
        (Except.error "Received message is in the past", d)
      else if parents.length = 0 then
        match m.body with
        | .root => (Except.ok true, addMessage d m)
        | .json _ => (Except.error "Invalid root content", d)
      else
        match m.body with
        | .root => (Except.error "Invalid non-root content", d)
        | .json s =>
          match checkJSONLimit s m.chain.length with
          | .error e => (Except.error e, d)
          | .ok _ => (Except.ok true, addMessage d m)

/-- An identity holding a chain for the channel (identity.js data the post
path needs: the signing public key and the per-channel chain). -/
structure Identity where
  publicKey : Bytes
  chain : List Link
deriving DecidableEq, Repr

/-- Modelled from the spec: `identity.signMessageBody` (the file
lib/protocol/identity.js is not among the sources).  Per the specification
it constructs the Content carrying this identity's chain for the channel
and signs the TBS under the identity secret key; symbolically the produced
signature names the identity public key as signer. -/
def signMessageBody (ident : Identity) (body : Body) (parents : List Bytes)
    (height : Nat) (timestamp : Int) : MsgSig :=
  ⟨ident.publicKey, ⟨ident.chain, timestamp, body, parents, height⟩⟩

/-- BLAKE2b content address of the serialized encrypted message produced by
the Message constructor, idealized as an injective function of the random
nonce and the serialized fields. -/
def messageHash (nonce : Bytes) (parents : List Bytes) (height : Nat)
    (timestamp : Int) : Bytes :=
  nonce ++ [parents.length, height, timestamp.toNat] ++ parents.flatten

/-- Channel.post (channel.js).  `timeNow` plays the part of the default
`timestamp = now()` argument when the caller supplies none; `nonce` is the
CSPRNG output used by the Message constructor. -/
def post (ch : ChanPub) (d : ChannelData) (body : Body) (ident : Identity)
    (timestamp : Int) (nonce : Bytes) : Except String (Msg × ChannelData) :=
  match body with
  | .root => .error "Posting root is not allowed"
  | .json s =>
    let leaves := channelLeaves d
    let parents := filterParents leaves
    if parents.length = 0 then
      if d.messages.length = 0 then
        .error "Initial synchronization not complete"
      else
        .error "Internal error: no leaves"
    else
      let height := computeHeight parents
      let ts := adjustTimestamp parents timestamp
      let parentHashes := parents.map (fun p => p.hash)
      let sig := signMessageBody ident body parentHashes height ts
      match checkJSONLimit s ident.chain.length with
      | .error e => .error e
      | .ok _ =>
        let m : Msg :=
          ⟨messageHash nonce parentHashes height ts, parentHashes, height,
            ts, ident.chain, body, sig⟩
        .ok (m, addMessage d m)

/-- Channel.bulk (channel.js): truncate to MAX_BULK_COUNT, reject invalid
hash sizes, return the stored subset in input order together with the
number of input hashes processed. -/
def bulk (d : ChannelData) (hashes : List Bytes) :
    Except String (List Msg × Nat) :=
  let hs := hashes.take MAX_BULK_COUNT
  if hs.all (fun h => h.length == HASH_SIZE) then
    .ok ((getMessages d hs).filterMap id, hs.length)
  else
    .error "Invalid hash size in bulk()"

/-- The CSPRNG output of randombytes_buf filling a buffer of length `len`,
modelled as a function of an abstract seed; the length is `len` by
construction, as for the allocated buffer of the source. -/
def randombytes (seed : Nat) (len : Nat) : Bytes :=
  (List.range len).map (fun i => (seed + i) % 256)

/-- Byte `i` of the XSalsa20 keystream for this key and nonce, abstracted
to an arbitrary computable byte-valued function. -/
def keystreamByte (key nonce : Bytes) (i : Nat) : Nat :=
  (key.sum + nonce.sum + i) % 256

/-- XOR of the data with the keystream starting at index `i` (the stream
cipher half of crypto_secretbox; XOR of bytes below 256 stays below 256). -/
def xorStream (key nonce : Bytes) (i : Nat) : Bytes → Bytes
  | [] => []
  | b :: rest => (b ^^^ keystreamByte key nonce i) :: xorStream key nonce (i + 1) rest

/-- The 16-byte Poly1305 tag, abstracted to a computable function of key,
nonce and plaintext that open recomputes and compares. -/
def secretboxTag (key nonce data : Bytes) : Bytes :=
  List.replicate (crypto_secretbox_MACBYTES - 1) 0 ++
    [(key.sum + nonce.sum + data.sum) % 256]

/-- Result record of Channel.encrypt. -/
structure EncryptResult where
  nonce : Bytes
  box : Bytes
deriving DecidableEq, Repr

/-- Channel.encrypt (channel.js): draw a fresh nonce, produce the secretbox
of the data (tag followed by ciphertext, so that the box is exactly
crypto_secretbox_MACBYTES longer than the data). -/
def encrypt (encryptionKey : Bytes) (seed : Nat) (data : Bytes) :
    EncryptResult :=
  let nonce := randombytes seed crypto_secretbox_NONCEBYTES
  ⟨nonce, secretboxTag encryptionKey nonce data ++
    xorStream encryptionKey nonce 0 data⟩

/-- Channel.decrypt (channel.js): reject a wrong-sized nonce, reject any
box not strictly longer than the tag, open the box and reject on tag
mismatch. -/
def decrypt (encryptionKey : Bytes) (box nonce : Bytes) :
    Except String Bytes :=
  if nonce.length ≠ crypto_secretbox_NONCEBYTES then
    .error "Invalid nonce"
  else if box.length ≤ crypto_secretbox_MACBYTES then
    .error "Invalid encrypted box"
  else
    let tag := box.take crypto_secretbox_MACBYTES
    let cipher := box.drop crypto_secretbox_MACBYTES
    let data := xorStream encryptionKey nonce 0 cipher
    if tag == secretboxTag encryptionKey nonce data then
      .ok data
    else
      .error "Invalid encrypted box"

/-- One BulkResponse of the remote peer (sync-agent.js `bulk`): the
forwardIndex arrives from the wire and is adversarial. -/
structure BulkResponse where
  messages : List Msg
  forwardIndex : Int
deriving Repr

/-- The inner message loop of Channel.receiveBulk: each message must be
among the expected hashes, then is fed to receive; an accepted message
increments the delta. -/
def processBulkMessages (ch : ChanPub) (timeNow : Int)
    (expected : List Bytes) :
    ChannelData → Nat → List Msg → Except String (Nat × ChannelData)
  | d, delta, [] => .ok (delta, d)
  | d, delta, m :: rest =>
    if m.hash ∈ expected then
      match receive ch d m timeNow with
      | (.error e, _) => .error e
      | (.ok accepted, d2) =>
        processBulkMessages ch timeNow expected d2
          (if accepted then delta + 1 else delta) rest
    else
      .error "Unexpected message in bulk response"

/-- The while loop of Channel.receiveBulk (channel.js): `expected` is the
set built once from the hashes of the original request; each iteration asks
the remote for the remaining hashes, requires progress, consumes the
returned messages and advances by forwardIndex. -/
def receiveBulkLoop (ch : ChanPub) (remote : List Bytes → BulkResponse)
    (timeNow : Int) (expected : List Bytes) (d : ChannelData) (delta : Nat)
    (hashes : List Bytes) : Except String (Nat × ChannelData) :=
  if h0 : hashes = [] then
    .ok (delta, d)
  else
    if h1 : (remote hashes).forwardIndex ≤ 0 then
      .error "Failed to make progress"
    else
      match processBulkMessages ch timeNow expected d delta
          (remote hashes).messages with
      | .error e => .error e
      | .ok (delta2, d2) =>
        receiveBulkLoop ch remote timeNow expected d2 delta2
          (hashes.drop (remote hashes).forwardIndex.toNat)
termination_by hashes.length
decreasing_by
  have hlen : 0 < hashes.length := List.length_pos.mpr h0
  have hfi : 0 < (remote hashes).forwardIndex := lt_of_not_le h1
  simp only [List.length_drop]
  omega

/-- Channel.receiveBulk (channel.js): the expected set is the full initial
request. -/
def receiveBulk (ch : ChanPub) (remote : List Bytes → BulkResponse)
    (timeNow : Int) (d : ChannelData) (hashes : List Bytes) :
    Except String (Nat × ChannelData) :=
  receiveBulkLoop ch remote timeNow hashes d 0 hashes

/-- The three states of the SyncAgent state machine (sync-agent.js). -/
inductive SyncState where
  | idle : SyncState
  | active : SyncState
  | pending : SyncState
deriving DecidableEq, Repr

/-- Observable state of a SyncAgent: its state field, the destroyed flag,
and an instrumentation counter of how many sync runs have been started
(each `channel.sync` launch). -/
structure AgentState where
  state : SyncState
  destroyed : Bool
  runsStarted : Nat
deriving DecidableEq, Repr

/-- The synchronous head of SyncAgent.synchronize() (sync-agent.js): a
destroyed agent returns at once; a pending agent returns at once (the only
early return of the branch ladder); an idle agent becomes active, an active
agent becomes pending, and in BOTH of these cases the call falls through to
`await this.channel.sync(this)`, starting a sync run — in particular a call
arriving while a run is active immediately launches a second, concurrent
run. -/
def synchronizeCall (a : AgentState) : AgentState :=
  if a.destroyed then a
  else
    match a.state with
    | .idle => { a with state := .active, runsStarted := a.runsStarted + 1 }
    | .active => { a with state := .pending, runsStarted := a.runsStarted + 1 }
    | .pending => a

/-- The continuation of SyncAgent.synchronize() after `channel.sync`
finishes: remember whether a call arrived during the run, return to idle,
and restart (through another synchronize call) exactly when one did. -/
def syncComplete (a : AgentState) : AgentState :=
  let isPending := a.state = SyncState.pending
  let a2 := { a with state := SyncState.idle }
  if isPending then synchronizeCall a2 else a2

/-!  Helper lemmas about the fold-max accumulators of channel.js. -/

/-- Folding max over a Nat-valued field distributes over the seed. -/
theorem foldl_nat_max_shift (f : Msg → Nat) (ps : List Msg) (a : Nat) :
    ps.foldl (fun acc p => max acc (f p)) a =
      max a (ps.foldl (fun acc p => max acc (f p)) 0) := by
  induction ps generalizing a with
  | nil => simp
  | cons p tl ih =>
    rw [List.foldl_cons, List.foldl_cons, ih (max a (f p)), ih (max 0 (f p))]
    omega

/-- Folding max over a list of naturals distributes over the seed. -/
theorem foldl_max_shift_nat (l : List Nat) (a : Nat) :
    l.foldl max a = max a (l.foldl max 0) := by
  induction l generalizing a with
  | nil => simp
  | cons x tl ih =>
    rw [List.foldl_cons, List.foldl_cons, ih (max a x), ih (max 0 x)]
    omega

/-- The height formula as the spec words it: one plus the maximum parent
height, zero when there are no parents.  Defined from the spec sentence for
comparison with the computeHeight of the source. -/
def specHeightOfParents : List Msg → Nat
  | [] => 0
  | p :: tl => 1 + ((p :: tl).map Msg.height).foldl max 0

theorem computeHeight_cons (p : Msg) (tl : List Msg) :
    computeHeight (p :: tl) = max (p.height + 1) (computeHeight tl) := by
  unfold computeHeight
  rw [List.foldl_cons, foldl_nat_max_shift]
  omega

theorem specHeightOfParents_cons (p : Msg) (tl : List Msg) :
    specHeightOfParents (p :: tl) = max (p.height + 1) (specHeightOfParents tl) := by
  cases tl with
  | nil =>
    simp [specHeightOfParents]
    omega
  | cons q tl2 =>
    show 1 + ((p :: q :: tl2).map Msg.height).foldl max 0 = _
    rw [List.map_cons, List.foldl_cons, foldl_max_shift_nat]
    show _ = max (p.height + 1) (1 + ((q :: tl2).map Msg.height).foldl max 0)
    omega

/-- Channel.computeHeight agrees with the height formula of the spec. -/
theorem computeHeight_eq_spec (ps : List Msg) :
    computeHeight ps = specHeightOfParents ps := by
  induction ps with
  | nil => rfl
  | cons p tl ih => rw [computeHeight_cons, specHeightOfParents_cons, ih]

/-- The seed is a lower bound of an Int max fold over timestamps. -/
theorem foldl_int_max_init (ps : List Msg) (a : Int) :
    a ≤ ps.foldl (fun acc p => max acc p.timestamp) a := by
  induction ps generalizing a with
  | nil => exact le_refl a
  | cons p tl ih => exact le_trans (le_max_left a p.timestamp) (ih _)

/-- Every member is a lower bound of an Int max fold over timestamps. -/
theorem foldl_int_max_mem (ps : List Msg) (a : Int) (p : Msg) (hp : p ∈ ps) :
    p.timestamp ≤ ps.foldl (fun acc q => max acc q.timestamp) a := by
  induction ps generalizing a with
  | nil => cases hp
  | cons q tl ih =>
    rw [List.foldl_cons]
    rcases List.mem_cons.mp hp with h | h
    · subst h
      exact le_trans (le_max_right a p.timestamp) (foldl_int_max_init tl _)
    · exact ih _ h

theorem computeMaxTimestamp_mem (ps : List Msg) (p : Msg) (hp : p ∈ ps) :
    p.timestamp ≤ computeMaxTimestamp ps :=
  foldl_int_max_mem ps 0 p hp

theorem adjustTimestamp_init (ps : List Msg) (ts : Int) :
    ts ≤ adjustTimestamp ps ts :=
  foldl_int_max_init ps ts

theorem adjustTimestamp_mem (ps : List Msg) (ts : Int) (p : Msg) (hp : p ∈ ps) :
    p.timestamp ≤ adjustTimestamp ps ts :=
  foldl_int_max_mem ps ts p hp

/-!  Claim C9: the SyncAgent re-entry behavior of synchronize(). -/

/-- The two observable events of a SyncAgent: a synchronize() invocation
running its synchronous head, and the continuation of one in-flight
`channel.sync` run completing. -/
inductive AgentEvent where
  | call : AgentEvent
  | complete : AgentEvent
deriving DecidableEq, Repr

/-- One event of the agent. -/
def agentStep (a : AgentState) : AgentEvent → AgentState
  | .call => synchronizeCall a
  | .complete => syncComplete a

/-- A sequence of agent events. -/
def runAgent (a : AgentState) (es : List AgentEvent) : AgentState :=
  es.foldl agentStep a

/-- C9 counterexample: a synchronize() call arriving while a run is active
marks the agent pending AND immediately starts a second, concurrent sync
run (the active branch of the source falls through to channel.sync; only
the pending branch returns early).  In the claim's scenario — one call
while active, then the current run finishes — three runs have been started:
the original, the immediate concurrent one, and the restart; the claim
allows only the original plus a single restart. -/
theorem c9_call_while_active_starts_run :
    synchronizeCall (AgentState.mk SyncState.active false 1) =
      AgentState.mk SyncState.pending false 2 ∧
    runAgent (AgentState.mk SyncState.idle false 0)
      [AgentEvent.call, AgentEvent.call, AgentEvent.complete] =
      AgentState.mk SyncState.active false 3 :=
  ⟨rfl, rfl⟩

/-- C9 amended: a synchronize() call on an active agent moves it to pending
and immediately starts one more concurrent run; further calls on a pending
agent are coalesced (no state change, no run); when a run finishes on a
pending agent the agent returns to idle and restarts exactly once (one more
run, back to active); a run finishing on a non-pending agent returns it to
idle without a new run. -/
theorem c9_sync_transitions :
    (∀ a : AgentState, a.destroyed = false → a.state = SyncState.active →
      synchronizeCall a =
        { a with state := SyncState.pending,
                 runsStarted := a.runsStarted + 1 }) ∧
    (∀ a : AgentState, a.state = SyncState.pending → synchronizeCall a = a) ∧
    (∀ a : AgentState, a.destroyed = false → a.state = SyncState.pending →
      syncComplete a =
        { a with state := SyncState.active, runsStarted := a.runsStarted + 1 }) ∧
    (∀ a : AgentState, a.state = SyncState.active →
      syncComplete a = { a with state := SyncState.idle }) := by
  refine ⟨?_, ?_, ?_, ?_⟩
  · intro a hd hs
    simp [synchronizeCall, hd, hs]
  · intro a hs
    cases hd : a.destroyed <;> simp [synchronizeCall, hd, hs]
  · intro a hd hs
    simp [syncComplete, synchronizeCall, hd, hs]
  · intro a hs
    simp [syncComplete, hs]

/-- Witness for C9 amended at a concrete agent state. -/
theorem c9_sync_transitions_witness :
    (AgentState.mk SyncState.active false 1).destroyed = false ∧
    (AgentState.mk SyncState.active false 1).state = SyncState.active ∧
    synchronizeCall (AgentState.mk SyncState.active false 1) =
      AgentState.mk SyncState.pending false 2 ∧
    syncComplete (AgentState.mk SyncState.pending false 2) =
      AgentState.mk SyncState.active false 3 :=
  ⟨rfl, rfl,
    c9_sync_transitions.1 (AgentState.mk SyncState.active false 1) rfl rfl,
    c9_sync_transitions.2.2.1 (AgentState.mk SyncState.pending false 2) rfl rfl⟩

/-!  Helper lemmas about the secretbox model. -/

theorem xorStream_length (k n : Bytes) (i : Nat) (d : Bytes) :
    (xorStream k n i d).length = d.length := by
  induction d generalizing i with
  | nil => rfl
  | cons b rest ih => simp [xorStream, ih]

theorem xorStream_involutive (k n : Bytes) (i : Nat) (d : Bytes) :
    xorStream k n i (xorStream k n i d) = d := by
  induction d generalizing i with
  | nil => rfl
  | cons b rest ih =>
    simp only [xorStream, ih]
    rw [Nat.xor_assoc, Nat.xor_self, Nat.xor_zero]

theorem secretboxTag_length (k n d : Bytes) :
    (secretboxTag k n d).length = crypto_secretbox_MACBYTES := by
  simp [secretboxTag, crypto_secretbox_MACBYTES]

theorem randombytes_length (seed len : Nat) :
    (randombytes seed len).length = len := by
  simp [randombytes]

theorem take_append_eq {α : Type} (l₁ l₂ : List α) (n : Nat)
    (h : l₁.length = n) : (l₁ ++ l₂).take n = l₁ := by
  subst h
  exact List.take_left l₁ l₂

theorem drop_append_eq {α : Type} (l₁ l₂ : List α) (n : Nat)
    (h : l₁.length = n) : (l₁ ++ l₂).drop n = l₂ := by
  subst h
  exact List.drop_left l₁ l₂

/-!  Claim C3: the channel symmetric crypto round trip. -/

/-- C3 counterexample: for the empty byte string the box produced by
Channel.encrypt has exactly crypto_secretbox_MACBYTES bytes, and
Channel.decrypt rejects it with a BanError instead of returning the empty
string. -/
theorem c3_empty_data_decrypt_fails :
    decrypt [7, 8] (encrypt [7, 8] 3 []).box (encrypt [7, 8] 3 []).nonce =
      Except.error "Invalid encrypted box" ∧
    (encrypt [7, 8] 3 []).box.length = crypto_secretbox_MACBYTES := by
  exact ⟨rfl, rfl⟩

/-- C3 amended: for every non-empty byte string `c`, Channel.decrypt on the
box and nonce produced by Channel.encrypt of the same channel key returns
`c` without an error. -/
theorem c3_amended_decrypt_encrypt (key : Bytes) (seed : Nat) (data : Bytes)
    (h : data ≠ []) :
    decrypt key (encrypt key seed data).box (encrypt key seed data).nonce =
      Except.ok data := by
  unfold encrypt decrypt
  simp only [randombytes_length]
  rw [if_neg (by omega)]
  have hlen : (secretboxTag key (randombytes seed crypto_secretbox_NONCEBYTES) data ++
      xorStream key (randombytes seed crypto_secretbox_NONCEBYTES) 0 data).length =
      crypto_secretbox_MACBYTES + data.length := by
    rw [List.length_append, secretboxTag_length, xorStream_length]
  have hpos : 0 < data.length := List.length_pos.mpr h
  rw [if_neg (by omega)]
  rw [take_append_eq _ _ _ (secretboxTag_length _ _ _),
    drop_append_eq _ _ _ (secretboxTag_length _ _ _),
    xorStream_involutive]
  simp

/-- Witness for C3 amended at a concrete non-empty input. -/
theorem c3_amended_witness :
    ([5] : Bytes) ≠ [] ∧
    decrypt [7, 8] (encrypt [7, 8] 3 [5]).box (encrypt [7, 8] 3 [5]).nonce =
      Except.ok [5] :=
  ⟨by decide, c3_amended_decrypt_encrypt [7, 8] 3 [5] (by decide)⟩

/-!  Concrete channel, store and messages used by the C1 and C2 theorems.
The channel public key is `[1]`, the channel id `[2]`; the stored root has
hash `[10]`; signatures are the symbolic records the channel root key
produces over the respective TBS. -/

/-- A concrete channel. -/
def demoChannel : ChanPub := ⟨[1], [2]⟩

/-- The root message of the concrete channel, signed by the channel key
over its TBS (empty chain, timestamp 100). -/
def demoRoot : Msg :=
  ⟨[10], [], 0, 100, [], .root, ⟨[1], ⟨[], 100, .root, [], 0⟩⟩⟩

/-- The store after the root has been accepted. -/
def demoStore : ChannelData := addMessage emptyChannelData demoRoot

/-- A second, distinct root-shaped message: empty parents, height 0, a
later timestamp, a different hash (different nonce), validly signed by the
channel key. -/
def secondRoot : Msg :=
  ⟨[11], [], 0, 101, [], .root, ⟨[1], ⟨[], 101, .root, [], 0⟩⟩⟩

/-- A non-root message with an empty chain signed directly by the channel
root key, as the channel creator posts it. -/
def creatorMsg : Msg :=
  ⟨[12], [[10]], 1, 150, [], .json "hi",
    ⟨[1], ⟨[], 150, .json "hi", [[10]], 1⟩⟩⟩

/-!  Claim C1: uniqueness of the root. -/

/-- C1 counterexample: with the root already stored, Channel.receive
accepts a different validly-signed message with an empty parents list
instead of rejecting it: the call returns true and stores the message. -/
theorem c1_second_root_accepted :
    receive demoChannel demoStore secondRoot 200 =
      (Except.ok true, addMessage demoStore secondRoot) ∧
    secondRoot.hash ≠ demoRoot.hash ∧
    secondRoot.parents = [] ∧
    msgVerify demoChannel secondRoot 200 = true :=
  ⟨rfl, by decide, rfl, rfl⟩

/-- C1 amended: Channel.receive ignores a root message only when it is an
exact duplicate (same hash), returning false and leaving the store
unchanged; root uniqueness is not enforced, and a distinct validly-signed
root-shaped message passing the height and timestamp checks is accepted
(see the counterexample). -/
theorem c1_amended_duplicate_root_ignored (ch : ChanPub) (d : ChannelData)
    (m : Msg) (t : Int) (h : hasMessage d m.hash = true) :
    receive ch d m t = (Except.ok false, d) := by
  unfold receive
  simp [h]

/-- Witness for C1 amended: the stored root received again is ignored. -/
theorem c1_amended_witness :
    hasMessage demoStore demoRoot.hash = true ∧
    receive demoChannel demoStore demoRoot 200 = (Except.ok false, demoStore) :=
  ⟨by decide,
    c1_amended_duplicate_root_ignored demoChannel demoStore demoRoot 200 (by decide)⟩

/-!  Claim C2: non-root messages with an empty chain. -/

/-- C2 counterexample: a non-root message whose decrypted chain has length
0 is not rejected by the verify step: Message.verify succeeds for the
channel-key-signed creator message and Channel.receive accepts it. -/
theorem c2_empty_chain_nonroot_accepted :
    creatorMsg.chain = [] ∧
    creatorMsg.body ≠ Body.root ∧
    msgVerify demoChannel creatorMsg 200 = true ∧
    (receive demoChannel demoStore creatorMsg 200).1 = Except.ok true :=
  ⟨rfl, by decide, rfl, rfl⟩

/-- C2 amended: a chain of length 0 means the channel root key signs
directly: Message.verify of a message with an empty chain succeeds exactly
when the signature verifies under the channel public key, for root and
non-root bodies alike, so Channel.receive can accept a non-root message
carrying an empty chain (the creator's own posts are of this shape). -/
theorem c2_amended_empty_chain_verify (ch : ChanPub) (m : Msg) (t : Int)
    (h : m.chain = []) :
    msgVerify ch m t = msgSigVerify m.signature (msgTbs m) ch.publicKey := by
  unfold msgVerify getLeafKey
  rw [h]
  rfl

/-- Witness for C2 amended at the concrete creator message. -/
theorem c2_amended_witness :
    creatorMsg.chain = [] ∧
    msgVerify demoChannel creatorMsg 200 =
      msgSigVerify creatorMsg.signature (msgTbs creatorMsg)
        demoChannel.publicKey :=
  ⟨rfl, c2_amended_empty_chain_verify demoChannel creatorMsg 200 rfl⟩

/-!  Exhaustive case analysis of Channel.receive: a call is a duplicate
no-op, an acceptance that passed every check, or an error that leaves the
store unchanged. -/

theorem receive_cases (ch : ChanPub) (d : ChannelData) (m : Msg) (t : Int) :
    (hasMessage d m.hash = true ∧ receive ch d m t = (Except.ok false, d)) ∨
    (∃ ps, hasMessage d m.hash = false ∧
      allSome (getMessages d m.parents) = some ps ∧
      msgVerify ch m t = true ∧
      (filterParents ps).length = ps.length ∧
      m.height = computeHeight ps ∧
      m.timestamp ≤ t + FUTURE ∧
      computeMaxTimestamp ps ≤ m.timestamp ∧
      receive ch d m t = (Except.ok true, addMessage d m)) ∨
    (∃ e, receive ch d m t = (Except.error e, d)) := by
  by_cases h1 : hasMessage d m.hash = true
  · exact Or.inl ⟨h1, by unfold receive; simp [h1]⟩
  have h1f : hasMessage d m.hash = false := by
    cases hx : hasMessage d m.hash
    · rfl
    · exact absurd hx h1
  by_cases h2 : msgVerify ch m t = true
  case neg =>
    have h2f : msgVerify ch m t = false := by
      cases hx : msgVerify ch m t
      · rfl
      · exact absurd hx h2
    refine Or.inr (Or.inr ⟨"Invalid message signature, or invalid chain", ?_⟩)
    unfold receive
    simp [h1f, h2f]
  by_cases h3 : m.parents.length > MAX_LEAVES_COUNT
  case pos =>
    refine Or.inr (Or.inr ⟨"Invalid parent count", ?_⟩)
    unfold receive
    simp [h1f, h2, h3]
  cases hm : allSome (getMessages d m.parents) with
  | none =>
    refine Or.inr (Or.inr ⟨"Message parent not found", ?_⟩)
    unfold receive
    simp [h1f, h2, h3, hm]
  | some ps =>
  by_cases h4 : (filterParents ps).length ≠ ps.length
  case pos =>
    refine Or.inr (Or.inr ⟨"Parent timestamp delta is greater than 30 days", ?_⟩)
    unfold receive
    simp [h1f, h2, h3, hm, h4]
  by_cases h5 : m.height ≠ computeHeight ps
  case pos =>
    refine Or.inr (Or.inr ⟨"Invalid received message height", ?_⟩)
    unfold receive
    simp [h1f, h2, h3, hm, h4, h5]
  by_cases h6 : m.timestamp > t + FUTURE
  case pos =>
    refine Or.inr (Or.inr ⟨"Received message is in the future", ?_⟩)
    unfold receive
    simp [h1f, h2, h3, hm, h4, h5, h6]
  by_cases h7 : m.timestamp < computeMaxTimestamp ps
  case pos =>
    refine Or.inr (Or.inr ⟨"Received message is in the past", ?_⟩)
    unfold receive
    simp [h1f, h2, h3, hm, h4, h5, h6, h7]
  by_cases h8 : ps = []
  case pos =>
    subst h8
    cases hb : m.body with
    | root =>
      refine Or.inr (Or.inl ⟨[], h1f, rfl, h2, not_ne_iff.mp h4, not_not.mp h5,
        le_of_not_lt h6, le_of_not_lt h7, ?_⟩)
      unfold receive
      simp only [computeHeight, computeMaxTimestamp, List.foldl_nil] at h5 h7
      simp [h1f, h2, h3, hm, h4, h6, h7, hb, filterParents, computeHeight,
        computeMaxTimestamp, not_ne_iff.mp h5]
    | json s =>
      refine Or.inr (Or.inr ⟨"Invalid root content", ?_⟩)
      unfold receive
      simp only [computeHeight, computeMaxTimestamp, List.foldl_nil] at h5 h7
      simp [h1f, h2, h3, hm, h4, h6, h7, hb, filterParents, computeHeight,
        computeMaxTimestamp, not_ne_iff.mp h5]
  case neg =>
    cases hb : m.body with
    | root =>
      refine Or.inr (Or.inr ⟨"Invalid non-root content", ?_⟩)
      unfold receive
      simp [h1f, h2, h3, hm, h4, h5, h6, h7, h8, hb]
    | json s =>
      cases hcl : checkJSONLimit s m.chain.length with
      | error e =>
        refine Or.inr (Or.inr ⟨e, ?_⟩)
        unfold receive
        simp [h1f, h2, h3, hm, h4, h5, h6, h7, h8, hb, hcl]
      | ok u =>
        refine Or.inr (Or.inl ⟨ps, h1f, rfl, h2, not_ne_iff.mp h4, not_not.mp h5,
          le_of_not_lt h6, le_of_not_lt h7, ?_⟩)
        unfold receive
        simp [h1f, h2, h3, hm, h4, h5, h6, h7, h8, hb, hcl]

/-!  Claim C4: the height rule of Channel.receive. -/

/-- C4: every message accepted by Channel.receive has height equal to one
plus the maximum height among its stored parents (zero when the parents
list is empty); for a non-duplicate message whose height differs from this
value, receive fails with a BanError and leaves the store unchanged. -/
theorem c4_receive_height :
    (∀ (ch : ChanPub) (d : ChannelData) (m : Msg) (t : Int) (d2 : ChannelData),
      receive ch d m t = (Except.ok true, d2) →
      ∃ ps, allSome (getMessages d m.parents) = some ps ∧
        m.height = specHeightOfParents ps) ∧
    (∀ (ch : ChanPub) (d : ChannelData) (m : Msg) (t : Int) (ps : List Msg),
      hasMessage d m.hash = false →
      allSome (getMessages d m.parents) = some ps →
      m.height ≠ specHeightOfParents ps →
      ∃ e, receive ch d m t = (Except.error e, d)) := by
  constructor
  · intro ch d m t d2 h
    rcases receive_cases ch d m t with ⟨_, heq⟩ |
      ⟨ps, _, hm, _, _, hh, _, _, heq⟩ | ⟨e, heq⟩
    · rw [heq] at h
      simp at h
    · exact ⟨ps, hm, by rw [hh, computeHeight_eq_spec]⟩
    · rw [heq] at h
      simp at h
  · intro ch d m t ps hdup hps hne
    rcases receive_cases ch d m t with ⟨hd, _⟩ |
      ⟨ps2, _, hm, _, _, hh, _, _, _⟩ | ⟨e, heq⟩
    · rw [hdup] at hd
      simp at hd
    · rw [hps] at hm
      obtain rfl : ps = ps2 := by injection hm
      exact absurd (hh.trans (computeHeight_eq_spec ps)) hne
    · exact ⟨e, heq⟩

/-- Witness for C4: a non-duplicate child of the stored root carrying
height 5 instead of 1 is rejected with a BanError. -/
theorem c4_receive_height_witness :
    hasMessage demoStore [13] = false ∧
    allSome (getMessages demoStore [[10]]) = some [demoRoot] ∧
    (5 : Nat) ≠ specHeightOfParents [demoRoot] ∧
    ∃ e, receive demoChannel demoStore
      ⟨[13], [[10]], 5, 150, [], .json "x",
        ⟨[1], ⟨[], 150, .json "x", [[10]], 5⟩⟩⟩ 200 =
      (Except.error e, demoStore) :=
  ⟨by decide, by decide, by decide,
    c4_receive_height.2 demoChannel demoStore
      ⟨[13], [[10]], 5, 150, [], .json "x",
        ⟨[1], ⟨[], 150, .json "x", [[10]], 5⟩⟩⟩ 200 [demoRoot]
      (by decide) (by decide) (by decide)⟩

/-!  Claim C5: the timestamp rules of Channel.receive. -/

/-- C5: an accepted message has timestamp at most now plus FUTURE seconds
and at least the maximum timestamp among its stored parents; a
non-duplicate message violating the future bound, or one whose timestamp is
below the maximum parent timestamp, is rejected with a BanError and the
store is unchanged. -/
theorem c5_receive_timestamp :
    (∀ (ch : ChanPub) (d : ChannelData) (m : Msg) (t : Int) (d2 : ChannelData),
      receive ch d m t = (Except.ok true, d2) →
      m.timestamp ≤ t + FUTURE ∧
      ∃ ps, allSome (getMessages d m.parents) = some ps ∧
        computeMaxTimestamp ps ≤ m.timestamp ∧
        ∀ p ∈ ps, p.timestamp ≤ m.timestamp) ∧
    (∀ (ch : ChanPub) (d : ChannelData) (m : Msg) (t : Int),
      hasMessage d m.hash = false →
      m.timestamp > t + FUTURE →
      ∃ e, receive ch d m t = (Except.error e, d)) ∧
    (∀ (ch : ChanPub) (d : ChannelData) (m : Msg) (t : Int) (ps : List Msg),
      hasMessage d m.hash = false →
      allSome (getMessages d m.parents) = some ps →
      m.timestamp < computeMaxTimestamp ps →
      ∃ e, receive ch d m t = (Except.error e, d)) := by
  refine ⟨?_, ?_, ?_⟩
  · intro ch d m t d2 h
    rcases receive_cases ch d m t with ⟨_, heq⟩ |
      ⟨ps, _, hm, _, _, _, hfut, hts, heq⟩ | ⟨e, heq⟩
    · rw [heq] at h
      simp at h
    · exact ⟨hfut, ps, hm, hts,
        fun p hp => le_trans (computeMaxTimestamp_mem ps p hp) hts⟩
    · rw [heq] at h
      simp at h
  · intro ch d m t hdup hfut
    rcases receive_cases ch d m t with ⟨hd, _⟩ |
      ⟨ps, _, _, _, _, _, hle, _, _⟩ | ⟨e, heq⟩
    · rw [hdup] at hd
      simp at hd
    · omega
    · exact ⟨e, heq⟩
  · intro ch d m t ps hdup hps hlt
    rcases receive_cases ch d m t with ⟨hd, _⟩ |
      ⟨ps2, _, hm, _, _, _, _, hts, _⟩ | ⟨e, heq⟩
    · rw [hdup] at hd
      simp at hd
    · rw [hps] at hm
      obtain rfl : ps = ps2 := by injection hm
      omega
    · exact ⟨e, heq⟩

/-- Witness for C5: a message 800 seconds in the future of now is rejected
with a BanError leaving the store unchanged. -/
theorem c5_receive_timestamp_witness :
    hasMessage demoStore [14] = false ∧
    (1000 : Int) > 200 + FUTURE ∧
    ∃ e, receive demoChannel demoStore
      ⟨[14], [[10]], 1, 1000, [], .json "x",
        ⟨[1], ⟨[], 1000, .json "x", [[10]], 1⟩⟩⟩ 200 =
      (Except.error e, demoStore) :=
  ⟨by decide, by decide,
    c5_receive_timestamp.2.1 demoChannel demoStore
      ⟨[14], [[10]], 1, 1000, [], .json "x",
        ⟨[1], ⟨[], 1000, .json "x", [[10]], 1⟩⟩⟩ 200
      (by decide) (by decide)⟩

/-!  Claim C6: the Channel.post contract. -/

/-- C6: post refuses Root bodies; with no usable parents it fails with the
NotSynchronized error when the channel holds zero messages and with the
NoLeaves error otherwise; a successful post returns a message whose height
is one plus the maximum height of the filtered leaves and whose timestamp
is the maximum of the requested timestamp and all parent timestamps, never
regressing below either. -/
theorem c6_post_contract :
    (∀ (ch : ChanPub) (d : ChannelData) (ident : Identity) (ts : Int)
        (nonce : Bytes),
      post ch d Body.root ident ts nonce =
        Except.error "Posting root is not allowed") ∧
    (∀ (ch : ChanPub) (d : ChannelData) (s : String) (ident : Identity)
        (ts : Int) (nonce : Bytes),
      filterParents (channelLeaves d) = [] → d.messages.length = 0 →
      post ch d (Body.json s) ident ts nonce =
        Except.error "Initial synchronization not complete") ∧
    (∀ (ch : ChanPub) (d : ChannelData) (s : String) (ident : Identity)
        (ts : Int) (nonce : Bytes),
      filterParents (channelLeaves d) = [] → d.messages.length ≠ 0 →
      post ch d (Body.json s) ident ts nonce =
        Except.error "Internal error: no leaves") ∧
    (∀ (ch : ChanPub) (d : ChannelData) (s : String) (ident : Identity)
        (ts : Int) (nonce : Bytes) (m : Msg) (d2 : ChannelData),
      post ch d (Body.json s) ident ts nonce = Except.ok (m, d2) →
      filterParents (channelLeaves d) ≠ [] ∧
      m.height = specHeightOfParents (filterParents (channelLeaves d)) ∧
      m.timestamp = adjustTimestamp (filterParents (channelLeaves d)) ts ∧
      ts ≤ m.timestamp ∧
      ∀ p ∈ filterParents (channelLeaves d), p.timestamp ≤ m.timestamp) := by
  refine ⟨fun ch d ident ts nonce => rfl, ?_, ?_, ?_⟩
  · intro ch d s ident ts nonce h1 h2
    unfold post
    simp [h1, h2]
  · intro ch d s ident ts nonce h1 h2
    unfold post
    simp [h1, h2]
  · intro ch d s ident ts nonce m d2 h
    unfold post at h
    by_cases hp : (filterParents (channelLeaves d)).length = 0
    · simp only [hp, if_pos] at h
      split at h <;> simp at h
    · simp only [if_neg hp] at h
      cases hcl : checkJSONLimit s ident.chain.length with
      | error e =>
        rw [hcl] at h
        simp at h
      | ok u =>
        rw [hcl] at h
        simp only [Except.ok.injEq, Prod.mk.injEq] at h
        obtain ⟨hm1, _⟩ := h
        subst hm1
        refine ⟨fun hnil => hp (by rw [hnil]; rfl),
          computeHeight_eq_spec _, rfl, adjustTimestamp_init _ _,
          fun p hp2 => adjustTimestamp_mem _ _ _ hp2⟩

/-- The channel creator identity of the concrete channel: it signs with the
channel key and holds the empty chain. -/
def creatorIdent : Identity := ⟨[1], []⟩

/-- The message produced by the concrete post of the C6 witness. -/
def postedMsg : Msg :=
  ⟨[99, 1, 1, 120, 10], [[10]], 1, 120, [], .json "m",
    ⟨[1], ⟨[], 120, .json "m", [[10]], 1⟩⟩⟩

/-- Witness for C6: a concrete successful post above the stored root has
height 1 and timestamp max(120, 100) = 120. -/
theorem c6_post_contract_witness :
    post demoChannel demoStore (Body.json "m") creatorIdent 120 [99] =
      Except.ok (postedMsg, addMessage demoStore postedMsg) ∧
    (filterParents (channelLeaves demoStore) ≠ [] ∧
      postedMsg.height =
        specHeightOfParents (filterParents (channelLeaves demoStore)) ∧
      postedMsg.timestamp =
        adjustTimestamp (filterParents (channelLeaves demoStore)) 120 ∧
      (120 : Int) ≤ postedMsg.timestamp ∧
      ∀ p ∈ filterParents (channelLeaves demoStore),
        p.timestamp ≤ postedMsg.timestamp) :=
  ⟨rfl,
    c6_post_contract.2.2.2 demoChannel demoStore "m" creatorIdent 120 [99]
      postedMsg (addMessage demoStore postedMsg) rfl⟩

/-!  Helper lemmas about the hash index. -/

/-- In a store whose index keys agree with the indexed message hashes, a
successful lookup returns a message carrying the looked-up hash. -/
theorem getMessage_hash (d : ChannelData)
    (hcons : ∀ k mm, (k, mm) ∈ d.byHash → mm.hash = k)
    (hsh : Bytes) (mm : Msg) (h : getMessage d hsh = some mm) :
    mm.hash = hsh := by
  unfold getMessage at h
  cases hf : d.byHash.find? (fun p => p.1 == hsh) with
  | none =>
    rw [hf] at h
    simp at h
  | some pr =>
    rw [hf] at h
    simp only [Option.map_some', Option.some.injEq] at h
    have hkey : pr.1 = hsh := by
      have := List.find?_some hf
      simpa using this
    have hmem : (pr.1, pr.2) ∈ d.byHash := by
      simpa using List.mem_of_find?_eq_some hf
    rw [← h, hcons pr.1 pr.2 hmem, hkey]

/-- hasMessage agrees with the success of getMessage. -/
theorem hasMessage_eq_isSome (d : ChannelData) (hsh : Bytes) :
    hasMessage d hsh = (getMessage d hsh).isSome := by
  unfold hasMessage getMessage
  cases hf : d.byHash.find? (fun p => p.1 == hsh) with
  | none =>
    simp only [Option.map_none', Option.isSome_none]
    have hnone := List.find?_eq_none.mp hf
    cases hany : d.byHash.any (fun p => p.1 == hsh) with
    | false => rfl
    | true =>
      exfalso
      obtain ⟨x, hx, hpx⟩ := List.any_eq_true.mp hany
      exact hnone x hx hpx
  | some pr =>
    simp only [Option.map_some', Option.isSome_some]
    have : (d.byHash.find? (fun p => p.1 == hsh)).isSome = true := by
      rw [hf]
      rfl
    rw [List.find?_isSome] at this
    rw [← List.any_eq_true] at this
    exact this

/-- The stored subset returned by bulk lists exactly the requested hashes
present in storage, in input order. -/
theorem bulk_messages_spec (d : ChannelData)
    (hcons : ∀ k mm, (k, mm) ∈ d.byHash → mm.hash = k) :
    ∀ hs : List Bytes,
      ((getMessages d hs).filterMap id).map Msg.hash =
        hs.filter (fun h => hasMessage d h) := by
  intro hs
  induction hs with
  | nil => rfl
  | cons h tl ih =>
    show ((getMessage d h :: getMessages d tl).filterMap id).map Msg.hash = _
    rw [List.filter_cons]
    cases hg : getMessage d h with
    | none =>
      have hhm : hasMessage d h = false := by
        rw [hasMessage_eq_isSome, hg]
        rfl
      simp only [List.filterMap_cons, hg, hhm]
      simpa using ih
    | some mm =>
      have hhm : hasMessage d h = true := by
        rw [hasMessage_eq_isSome, hg]
        rfl
      simp [List.filterMap_cons, hg, hhm]
      exact ⟨getMessage_hash d hcons h mm hg, ih⟩

/-!  Claim C7: the Channel.bulk contract. -/

/-- C7: with valid hash sizes, bulk returns exactly the requested hashes
present in storage, in input order, and a forwardIndex equal to the number
of input hashes processed, which is the input length clamped to
MAX_BULK_COUNT = 128. -/
theorem c7_bulk_contract (d : ChannelData) (hashes : List Bytes)
    (hlen : ∀ h ∈ hashes.take MAX_BULK_COUNT, h.length = HASH_SIZE)
    (hcons : ∀ k mm, (k, mm) ∈ d.byHash → mm.hash = k) :
    bulk d hashes =
      Except.ok ((getMessages d (hashes.take MAX_BULK_COUNT)).filterMap id,
        min MAX_BULK_COUNT hashes.length) ∧
    ((getMessages d (hashes.take MAX_BULK_COUNT)).filterMap id).map Msg.hash =
      (hashes.take MAX_BULK_COUNT).filter (fun h => hasMessage d h) ∧
    min MAX_BULK_COUNT hashes.length ≤ MAX_BULK_COUNT := by
  refine ⟨?_, bulk_messages_spec d hcons _, Nat.min_le_left _ _⟩
  have hall : (hashes.take MAX_BULK_COUNT).all
      (fun h => h.length == HASH_SIZE) = true := by
    rw [List.all_eq_true]
    intro x hx
    exact beq_iff_eq.mpr (hlen x hx)
  unfold bulk
  rw [if_pos hall, List.length_take]

/-- A root message with a 32-byte hash, for the bulk witness. -/
def root32 : Msg :=
  ⟨List.replicate 32 1, [], 0, 100, [], .root, ⟨[1], ⟨[], 100, .root, [], 0⟩⟩⟩

/-- A store holding only `root32`. -/
def demoStore32 : ChannelData := addMessage emptyChannelData root32

/-- Witness for C7 at a store holding the concrete root: of the two
requested well-sized hashes only the stored one is returned, and the
forwardIndex covers both. -/
theorem c7_bulk_contract_witness :
    (∀ h ∈ ([List.replicate 32 1, List.replicate 32 2] :
      List Bytes).take MAX_BULK_COUNT, h.length = HASH_SIZE) ∧
    bulk demoStore32 [List.replicate 32 1, List.replicate 32 2] =
      Except.ok ([root32],
        min MAX_BULK_COUNT
          ([List.replicate 32 1, List.replicate 32 2] : List Bytes).length) :=
  ⟨by decide,
    (c7_bulk_contract demoStore32 [List.replicate 32 1, List.replicate 32 2]
      (by decide)
      (by
        intro k mm hmem
        have hpair : (k, mm) = (root32.hash, root32) := by
          simpa [demoStore32, addMessage, emptyChannelData, hasMessage]
            using hmem
        injection hpair with hk hm
        subst hk
        subst hm
        rfl)).1⟩

/-!  Claim C8: the leaves-closure invariant of the memory storage. -/

/-- The at-rest invariant of a channel store: index keys match message
hashes; every stored message's parents are stored (receive adds parents
before children); and the leaf set is exactly the set of stored hashes that
occur in no stored message's parents list. -/
def storeInv (d : ChannelData) : Prop :=
  (∀ k mm, (k, mm) ∈ d.byHash → mm.hash = k) ∧
  (∀ k mm, (k, mm) ∈ d.byHash → ∀ p ∈ mm.parents, hasMessage d p = true) ∧
  (∀ h : Bytes, h ∈ d.leaves ↔
    (hasMessage d h = true ∧ ∀ k mm, (k, mm) ∈ d.byHash → h ∉ mm.parents))

theorem hasMessage_iff_mem (d : ChannelData) (h : Bytes) :
    hasMessage d h = true ↔ ∃ mm, (h, mm) ∈ d.byHash := by
  unfold hasMessage
  rw [List.any_eq_true]
  constructor
  · rintro ⟨pr, hpr, hbeq⟩
    have : pr.1 = h := by simpa using hbeq
    exact ⟨pr.2, by rw [← this]; exact hpr⟩
  · rintro ⟨mm, hmm⟩
    exact ⟨(h, mm), hmm, by simp⟩

theorem hasMessage_cons (msgs : List Msg) (k : Bytes) (mm : Msg)
    (bh : List (Bytes × Msg)) (lv : List Bytes) (h : Bytes) :
    hasMessage ⟨msgs, (k, mm) :: bh, lv⟩ h =
      ((k == h) || hasMessage ⟨msgs, bh, lv⟩ h) := by
  unfold hasMessage
  simp [List.any_cons]

/-- Resolving a list through an option-valued function whose every lookup
succeeds with a matching witness reproduces the list. -/
theorem filterMap_map_resolve {α β : Type} (f : α → Option β) (g : β → α) :
    ∀ l : List α, (∀ x ∈ l, ∃ y, f x = some y ∧ g y = x) →
      (l.filterMap f).map g = l := by
  intro l
  induction l with
  | nil => intro _; rfl
  | cons x tl ih =>
    intro hres
    obtain ⟨y, hy, hg⟩ := hres x (List.mem_cons_self x tl)
    simp only [List.filterMap_cons, hy, List.map_cons]
    rw [hg, ih (fun z hz => hres z (List.mem_cons_of_mem _ hz))]

/-- C8: the empty store satisfies the leaves-closure invariant; addMessage
preserves it whenever the inserted message's parents are already stored (as
every message accepted by receive guarantees); and under the invariant
getLeaves returns exactly the leaf set. -/
theorem c8_leaves_closure :
    storeInv emptyChannelData ∧
    (∀ (d : ChannelData) (m : Msg),
      storeInv d → (∀ p ∈ m.parents, hasMessage d p = true) →
      storeInv (addMessage d m)) ∧
    (∀ d : ChannelData, storeInv d →
      (memGetLeaves d).map Msg.hash = d.leaves) := by
  refine ⟨⟨?_, ?_, ?_⟩, ?_, ?_⟩
  · intro k mm hmem
    simp [emptyChannelData] at hmem
  · intro k mm hmem
    simp [emptyChannelData] at hmem
  · intro h
    simp [emptyChannelData, hasMessage]
  · intro d m hinv hp
    obtain ⟨hkey, hclosed, hleaves⟩ := hinv
    by_cases hdup : hasMessage d m.hash = true
    · unfold addMessage
      rw [if_pos hdup]
      exact ⟨hkey, hclosed, hleaves⟩
    · have hselfpar : m.hash ∉ m.parents := fun hin => hdup (hp m.hash hin)
      have holdpar : ∀ k mm, (k, mm) ∈ d.byHash → m.hash ∉ mm.parents := by
        intro k mm hmem hin
        exact hdup (hclosed k mm hmem m.hash hin)
      have hleafnot : m.hash ∉ d.leaves := by
        intro hin
        exact hdup ((hleaves m.hash).mp hin).1
      unfold addMessage
      rw [if_neg hdup]
      refine ⟨?_, ?_, ?_⟩
      · intro k mm hmem
        rcases List.mem_cons.mp hmem with heq | hold
        · injection heq with hk hm
          subst hk
          subst hm
          rfl
        · exact hkey k mm hold
      · intro k mm hmem p hpp
        have hbase : hasMessage d p = true := by
          rcases List.mem_cons.mp hmem with heq | hold
          · injection heq with hk hm
            subst hk
            subst hm
            exact hp p hpp
          · exact hclosed k mm hold p hpp
        rw [show (hasMessage
            ⟨sortCRDT (d.messages ++ [m]), (m.hash, m) :: d.byHash,
              updateLeaves d.leaves m.parents m.hash⟩ p) =
            ((m.hash == p) || hasMessage ⟨d.messages, d.byHash, d.leaves⟩ p)
          from hasMessage_cons _ _ _ _ _ _]
        rw [show hasMessage ⟨d.messages, d.byHash, d.leaves⟩ p =
            hasMessage d p from rfl, hbase]
        simp
      · intro h
        have hcons : ∀ (lv : List Bytes) (hx : Bytes),
            hasMessage ⟨sortCRDT (d.messages ++ [m]), (m.hash, m) :: d.byHash,
              lv⟩ hx = ((m.hash == hx) || hasMessage d hx) := by
          intro lv hx
          exact hasMessage_cons _ _ _ d.byHash lv hx
        show h ∈ updateLeaves d.leaves m.parents m.hash ↔ _
        unfold updateLeaves
        have hnp : m.hash ∉ d.leaves.filter (fun x => decide (x ∉ m.parents)) :=
          fun hin => hleafnot (List.mem_of_mem_filter hin)
        rw [if_neg hnp, List.mem_append]
        constructor
        · rintro (hin | hin)
          · have hmem := List.mem_of_mem_filter hin
            have hcond : h ∉ m.parents := by
              have := List.of_mem_filter hin
              simpa using this
            obtain ⟨hhm, hnpar⟩ := (hleaves h).mp hmem
            refine ⟨?_, ?_⟩
            · rw [hcons _ h, hhm]
              simp
            · intro k mm hmem2
              rcases List.mem_cons.mp hmem2 with heq | hold
              · injection heq with hk hm
                subst hk
                subst hm
                exact hcond
              · exact hnpar k mm hold
          · have hh : h = m.hash := by simpa using hin
            refine ⟨?_, ?_⟩
            · rw [hcons _ h, hh]
              simp
            · intro k mm hmem2
              rcases List.mem_cons.mp hmem2 with heq | hold
              · injection heq with hk hm
                subst hk
                subst hm
                rw [hh]
                exact hselfpar
              · rw [hh]
                exact holdpar k mm hold
        · rintro ⟨hhm, hnpar⟩
          by_cases hh : h = m.hash
          · right
            simp [hh]
          · left
            rw [hcons _ h] at hhm
            have hbeq : (m.hash == h) = false := by
              simp
              exact fun hx => hh hx.symm
            rw [hbeq, Bool.false_or] at hhm
            have hnotp : h ∉ m.parents :=
              hnpar m.hash m (List.mem_cons_self _ _)
            refine List.mem_filter.mpr ⟨?_, by simpa using hnotp⟩
            exact (hleaves h).mpr
              ⟨hhm, fun k mm hold => hnpar k mm (List.mem_cons_of_mem _ hold)⟩
  · intro d hinv
    apply filterMap_map_resolve (getMessage d) Msg.hash d.leaves
    intro h hl
    have hhm : hasMessage d h = true := ((hinv.2.2 h).mp hl).1
    rw [hasMessage_eq_isSome] at hhm
    obtain ⟨mm, hmm⟩ := Option.isSome_iff_exists.mp hhm
    exact ⟨mm, hmm, getMessage_hash d hinv.1 h mm hmm⟩

/-- Witness for C8: the invariant holds for the concrete store obtained by
inserting the root into the empty store. -/
theorem c8_leaves_closure_witness : storeInv demoStore :=
  c8_leaves_closure.2.1 emptyChannelData demoRoot c8_leaves_closure.1
    (by simp [demoRoot])

/-!  Claim C10: ban conditions during the bulk fetch phase of sync. -/

/-- If the message loop of receiveBulk raises no error, every consumed
message hash was among the expected hashes. -/
theorem processBulkMessages_ok_mem (ch : ChanPub) (t : Int)
    (expected : List Bytes) :
    ∀ (msgs : List Msg) (d : ChannelData) (delta : Nat)
      (r : Nat × ChannelData),
      processBulkMessages ch t expected d delta msgs = Except.ok r →
      ∀ m ∈ msgs, m.hash ∈ expected := by
  intro msgs
  induction msgs with
  | nil =>
    intro d delta r hok m hm
    cases hm
  | cons m0 rest ih =>
    intro d delta r hok m hm
    unfold processBulkMessages at hok
    by_cases hexp : m0.hash ∈ expected
    · rw [if_pos hexp] at hok
      cases hrec : receive ch d m0 t with
      | mk res d2 =>
        rw [hrec] at hok
        cases res with
        | error e => cases hok
        | ok acc =>
          rcases List.mem_cons.mp hm with rfl | hmem
          · exact hexp
          · exact ih _ _ _ hok m hmem
    · rw [if_neg hexp] at hok
      cases hok

/-- C10: during Channel.receiveBulk, a bulk response reporting a
forwardIndex of zero or less while requested hashes remain raises the
BanError for lack of progress, and a response containing a message whose
hash is not among the requested (expected) hashes raises a BanError; in
receiveBulk the expected set is the initial request. -/
theorem c10_receive_bulk_ban :
    (∀ (ch : ChanPub) (remote : List Bytes → BulkResponse) (t : Int)
        (expected : List Bytes) (d : ChannelData) (delta : Nat)
        (hashes : List Bytes),
      hashes ≠ [] → (remote hashes).forwardIndex ≤ 0 →
      receiveBulkLoop ch remote t expected d delta hashes =
        Except.error "Failed to make progress") ∧
    (∀ (ch : ChanPub) (remote : List Bytes → BulkResponse) (t : Int)
        (expected : List Bytes) (d : ChannelData) (delta : Nat)
        (hashes : List Bytes),
      hashes ≠ [] → 0 < (remote hashes).forwardIndex →
      (∃ m ∈ (remote hashes).messages, m.hash ∉ expected) →
      ∃ e, receiveBulkLoop ch remote t expected d delta hashes =
        Except.error e) ∧
    (∀ (ch : ChanPub) (remote : List Bytes → BulkResponse) (t : Int)
        (d : ChannelData) (hashes : List Bytes),
      receiveBulk ch remote t d hashes =
        receiveBulkLoop ch remote t hashes d 0 hashes) := by
  refine ⟨?_, ?_, fun ch remote t d hashes => rfl⟩
  · intro ch remote t expected d delta hashes hne hle
    rw [receiveBulkLoop]
    rw [dif_neg hne, dif_pos hle]
  · intro ch remote t expected d delta hashes hne hpos hex
    rw [receiveBulkLoop]
    rw [dif_neg hne, dif_neg (not_le.mpr hpos)]
    cases hproc : processBulkMessages ch t expected d delta
        (remote hashes).messages with
    | error e =>
      exact ⟨e, rfl⟩
    | ok pr =>
      exfalso
      obtain ⟨m, hm, hnot⟩ := hex
      exact hnot (processBulkMessages_ok_mem ch t expected _ _ _ _ hproc m hm)

/-- A remote replying with an empty message list and zero forwardIndex. -/
def badRemote : List Bytes → BulkResponse := fun _ => ⟨[], 0⟩

/-- Witness for C10: a zero forwardIndex with one hash outstanding raises
the no-progress BanError. -/
theorem c10_receive_bulk_ban_witness :
    ([[1]] : List Bytes) ≠ [] ∧
    (badRemote [[1]]).forwardIndex ≤ 0 ∧
    receiveBulkLoop demoChannel badRemote 200 [[1]] demoStore 0 [[1]] =
      Except.error "Failed to make progress" :=
  ⟨by decide, by decide,
    c10_receive_bulk_ban.1 demoChannel badRemote 200 [[1]] demoStore 0 [[1]]
      (by decide) (by decide)⟩

end PeerLinks
